import Mathlib

/-!
Verification development for the quick-response-force orchestration engine:
a shallow embedding of the knowledge-activation resolver (core/lore.js),
the retry/validation engine and response normalization (core/api.js),
and the chat-history pruning helper, together with theorems checking the
specification's claims against these definitions.
-/

namespace QRF

/-- Characters remaining after stripping leading whitespace. -/
def dropLeadingWs : List Char → List Char
  | [] => []
  | c :: rest => if c.isWhitespace then dropLeadingWs rest else c :: rest

/-- JS `s.trim()`, modelled over the character list (kernel-reducible,
unlike the core string primitives defined by well-founded recursion). -/
def jsTrimStr (s : String) : String :=
  String.mk ((dropLeadingWs ((dropLeadingWs s.data).reverse)).reverse)

/-- JS `s.toLowerCase()`, modelled character-wise. -/
def jsToLowerCase (s : String) : String :=
  String.mk (s.data.map Char.toLower)

/-- JS `haystack.includes(needle)`: exact, case-sensitive substring test. -/
def jsIncludes (s sub : String) : Bool :=
  decide (sub.data <:+: s.data)

/-- The body of the `for (const keyword of requiredKeywords)` loop of
`validateKeywords` in core/api.js: returns `false` on the first keyword that
is not an exact substring of `content`, `true` when the list is exhausted. -/
def validateKeywordsLoop (content : String) : List String → Bool
  | [] => true
  | kw :: rest => if jsIncludes content kw then validateKeywordsLoop content rest else false

/-- `validateKeywords` from core/api.js (`callInterceptionApi`): trivially true
when the configured required-keyword list is empty, otherwise every keyword
must occur in `content`. -/
def validateKeywords (requiredKeywords : List String) (content : String) : Bool :=
  if requiredKeywords.length = 0 then true
  else validateKeywordsLoop content requiredKeywords

/-- Parsing of `apiSettings.requiredKeywords` in `callInterceptionApi`:
`s.split(',').map(kw => kw.trim()).filter(kw => kw.length > 0)`, with the
empty (falsy) string yielding the empty list. -/
def parseRequiredKeywords (s : String) : List String :=
  if s = "" then []
  else ((s.splitOn ",").map jsTrimStr).filter (fun kw => kw.length > 0)

/-- A message of the assembled prompt list. -/
structure Msg where
  role : String
  content : String
deriving DecidableEq, Repr

/-- Configuration snapshot used by `callInterceptionApi` (core/api.js).
`maxRetries = 0` models the JS falsy values handled by `maxRetries || 3`. -/
structure ApiSettings where
  apiUrl : String
  apiMode : String
  tavernProfile : String
  requiredKeywords : String
  maxRetries : Nat
deriving DecidableEq, Repr

/-- `apiSettings.maxRetries || 3`. -/
def effMaxRetries (cfg : ApiSettings) : Nat :=
  if cfg.maxRetries = 0 then 3 else cfg.maxRetries

/-- Result of one `makeApiCall` invocation: how many network dispatches were
issued, and the content it returned (`none` models JS `null`). -/
structure CallResult where
  networkCalls : Nat
  content : Option String
deriving DecidableEq, Repr

/-- `makeApiCall` from core/api.js, from the empty-message guard onward.
Prompt assembly is abstracted as the already-built `messages` parameter, and
the four transport variants are abstracted as `transport`, the normalized
content the selected backend would yield for this attempt (`result.content`).
The guards are the source's: an empty message list returns null before any
dispatch, and the managed-profile modes (`tavern`, `perfect`) return null
before any dispatch when no profile id is configured. -/
def makeApiCall (cfg : ApiSettings) (messages : List Msg) (transport : Option String) :
    CallResult :=
  if messages.length = 0 then ⟨0, none⟩
  else if cfg.apiMode = "tavern" then
    if cfg.tavernProfile = "" then ⟨0, none⟩ else ⟨1, transport⟩
  else if cfg.apiMode = "perfect" then
    if cfg.tavernProfile = "" then ⟨0, none⟩ else ⟨1, transport⟩
  else ⟨1, transport⟩

/-- Observable trace of one run of the retry loop of `callInterceptionApi`:
number of loop iterations (attempts), backoff sleeps in milliseconds in
order, total network dispatches, the attempt number that succeeded (if any),
whether the success-after-retry notice (`attempt > 1` toast) was shown, and
the value returned to the caller. -/
structure RunStats where
  attempts : Nat
  backoffsMs : List Nat
  networkCalls : Nat
  successAttempt : Option Nat
  lateNotice : Bool
  result : Option String
deriving DecidableEq, Repr

/-- The retry loop of `callInterceptionApi` (`for attempt = 1..maxRetries`),
with `call` giving the `makeApiCall` outcome per attempt number and the fuel
argument bounding the remaining iterations (callers pass `maxRetries`, which
is always sufficient). On null content or failed keyword validation with
attempts remaining it sleeps 1000 ms and retries; exhaustion returns null. -/
def retryGo (call : Nat → CallResult) (validate : String → Bool) (maxRetries : Nat) :
    Nat → Nat → RunStats
  | _, 0 => ⟨0, [], 0, none, false, none⟩
  | attempt, fuel + 1 =>
    let r := call attempt
    match r.content with
    | none =>
      if attempt < maxRetries then
        let s := retryGo call validate maxRetries (attempt + 1) fuel
        ⟨s.attempts + 1, 1000 :: s.backoffsMs, r.networkCalls + s.networkCalls,
          s.successAttempt, s.lateNotice, s.result⟩
      else ⟨1, [], r.networkCalls, none, false, none⟩
    | some content =>
      if validate content then
        ⟨1, [], r.networkCalls, some attempt, decide (1 < attempt), some content⟩
      else if attempt < maxRetries then
        let s := retryGo call validate maxRetries (attempt + 1) fuel
        ⟨s.attempts + 1, 1000 :: s.backoffsMs, r.networkCalls + s.networkCalls,
          s.successAttempt, s.lateNotice, s.result⟩
      else ⟨1, [], r.networkCalls, none, false, none⟩

/-- `callInterceptionApi` (core/api.js): aborts with null before the retry
loop when no API URL is configured, otherwise runs the retry loop over
`makeApiCall`, validating with the parsed required keywords. `transports`
gives the abstract backend content per attempt number. -/
def callInterceptionApi (cfg : ApiSettings) (messages : List Msg)
    (transports : Nat → Option String) : RunStats :=
  if cfg.apiUrl = "" then ⟨0, [], 0, none, false, none⟩
  else
    retryGo (fun a => makeApiCall cfg messages (transports a))
      (validateKeywords (parseRequiredKeywords cfg.requiredKeywords))
      (effMaxRetries cfg) 1 (effMaxRetries cfg)

/-- The success-after-retry notice as a function of the successful attempt
number: shown exactly when some attempt `k > 1` succeeded. -/
def lateNoticeSpec : Option Nat → Bool
  | some k => decide (1 < k)
  | none => false

/-! ## Knowledge activation resolver (core/lore.js, fallback scan path) -/

/-- A worldbook entry as consumed by the fallback scan of
`getCombinedWorldbookContent`. The `position`, `depth`, `order` and `role`
fields are present on SillyTavern entries but are never read by this code
path; they are carried here so that statements about rendering order can
refer to them. -/
structure LoreEntry where
  uid : Nat
  bookName : String
  content : String
  key : List String
  keys : List String
  type : String
  prevent_recursion : Bool
  exclude_recursion : Bool
  enabled : Bool
  position : String
  depth : Int
  order : Int
  role : String
deriving DecidableEq, Repr

/-- JS `[...new Set(l)]`: removes duplicates keeping first occurrences. -/
def jsSetDedup (l : List String) : List String :=
  l.foldl (fun acc x => if x ∈ acc then acc else acc ++ [x]) []

/-- `getEntryKeywords` from core/lore.js: the deduplicated union of
`entry.key` and `entry.keys`, lower-cased. -/
def getEntryKeywords (e : LoreEntry) : List String :=
  (jsSetDedup (e.key ++ e.keys)).map jsToLowerCase

/-- `recursionSourceContent` computed at the top of each pass of the
fixed-point loop: the joined, lower-cased content of the currently triggered
entries whose `prevent_recursion` flag is false. -/
def recursionSourceContent (triggered : List LoreEntry) : String :=
  jsToLowerCase (String.intercalate "\n"
    ((triggered.filter (fun e => !e.prevent_recursion)).map LoreEntry.content))

/-- The trigger test of the loop body: some keyword of the entry occurs in
`chatHistory` when the entry sets `exclude_recursion`, and in
`fullSearchText` otherwise (the guard `keywords.length > 0` is the
source's). -/
def entryTriggered (chatHistory fullSearchText : String) (e : LoreEntry) : Bool :=
  let keywords := getEntryKeywords e
  keywords.length > 0 &&
    keywords.any (fun kw =>
      if e.exclude_recursion then jsIncludes chatHistory kw
      else jsIncludes fullSearchText kw)

/-- State after one pass of the fixed-point loop. -/
structure PassState where
  triggered : List LoreEntry
  nextPending : List LoreEntry
  changed : Bool
deriving DecidableEq, Repr

/-- The `for (const entry of pendingGreenLights)` body: a matched entry
joins the triggered set (setting the changed flag), an unmatched one stays
pending. -/
def passStepFn (chatHistory fullSearchText : String) (st : PassState) (e : LoreEntry) :
    PassState :=
  if entryTriggered chatHistory fullSearchText e then
    ⟨st.triggered ++ [e], st.nextPending, true⟩
  else
    ⟨st.triggered, st.nextPending ++ [e], st.changed⟩

/-- One pass of the `while (true)` loop in `getCombinedWorldbookContent`:
the search corpus is computed once from the entries already triggered at the
start of the pass, then every still-pending entry is tested; matched entries
join the triggered set in order, the rest stay pending. -/
def activationPass (chatHistory : String) (triggered pending : List LoreEntry) : PassState :=
  let fullSearchText := chatHistory ++ "\n" ++ recursionSourceContent triggered
  pending.foldl (passStepFn chatHistory fullSearchText) ⟨triggered, [], false⟩

/-- Result of the fixed-point loop: the triggered entries in activation
order, and the number of passes (loop-body iterations) executed. -/
structure ActivationResult where
  triggered : List LoreEntry
  passes : Nat
deriving DecidableEq, Repr

/-- The fixed-point loop: repeat passes until one produces no new
activation. `fuel` bounds the iterations; the resolver passes
`pending.length + 1`, which always suffices. -/
def activationLoop (chatHistory : String) :
    List LoreEntry → List LoreEntry → Nat → ActivationResult
  | triggered, _, 0 => ⟨triggered, 0⟩
  | triggered, pending, fuel + 1 =>
    let st := activationPass chatHistory triggered pending
    if st.changed then
      let r := activationLoop chatHistory st.triggered st.nextPending fuel
      ⟨r.triggered, r.passes + 1⟩
    else ⟨st.triggered, 1⟩

/-- Plugin settings consumed by the fallback scan path. A `none` char limit
models the `undefined` (unset) setting. -/
structure WbSettings where
  worldbookStripEnabled : Bool
  worldbookCharLimit : Option Int
  disabledWorldbookEntries : List (String × List Nat)
deriving DecidableEq, Repr

/-- `disabledEntriesMap[entry.bookName]?.includes(entry.uid)`. -/
def isEntryDisabled (m : List (String × List Nat)) (bookName : String) (uid : Nat) : Bool :=
  match m.lookup bookName with
  | some uids => decide (uid ∈ uids)
  | none => false

/-- `text.replace(/\r\n/g, '\n')` over the character list. -/
def replaceCRLF : List Char → List Char
  | [] => []
  | '\r' :: '\n' :: rest => '\n' :: replaceCRLF rest
  | c :: rest => c :: replaceCRLF rest

/-- Splits off the leading run of newline characters. -/
def takeNewlineRun : List Char → Nat × List Char
  | '\n' :: rest =>
    let p := takeNewlineRun rest
    (p.1 + 1, p.2)
  | l => (0, l)

theorem takeNewlineRun_length_le : ∀ l : List Char, (takeNewlineRun l).2.length ≤ l.length := by
  intro l
  induction l with
  | nil => simp [takeNewlineRun]
  | cons c rest ih =>
    by_cases hc : c = '\n'
    · subst hc
      simp only [takeNewlineRun]
      exact le_trans ih (Nat.le_succ _)
    · rw [show takeNewlineRun (c :: rest) = (0, c :: rest) by
        cases c
        simp_all [takeNewlineRun]]

/-- `text.replace(/\n{3,}/g, '\n\n')`: collapses runs of three or more
newlines to exactly two. -/
def collapseNewlines : List Char → List Char
  | [] => []
  | '\n' :: rest =>
    let p := takeNewlineRun rest
    (if p.1 + 1 ≥ 3 then ['\n', '\n'] else List.replicate (p.1 + 1) '\n') ++ collapseNewlines p.2
  | c :: rest => c :: collapseNewlines rest
termination_by l => l.length
decreasing_by
  · exact Nat.lt_succ_of_le (takeNewlineRun_length_le rest)
  · simp

/-- `stripConfiguredWorldInfoContent` from core/lore.js. The iterative
per-line regex substitution is abstracted as `applyStripPatterns` (the
resolver applies each configured pattern with replacement `'\n'`); the
final CRLF normalization, blank-line collapsing and trim are embedded. -/
def stripConfiguredWorldInfoContent (s : WbSettings) (applyStripPatterns : String → String)
    (raw : String) : String :=
  if raw = "" then ""
  else if !s.worldbookStripEnabled then raw
  else jsTrimStr (String.mk (collapseNewlines (replaceCRLF (applyStripPatterns raw).data)))

/-- JS `s.substring(0, n)` for a nonnegative bound. -/
def jsSubstringTo (s : String) (n : Nat) : String :=
  String.mk (s.data.take n)

/-- The character-limit step of `getCombinedWorldbookContent`:
`limit = worldbookCharLimit !== undefined ? worldbookCharLimit : 60000`, and
the content is cut to `substring(0, limit)` when `limit > 0` and the length
exceeds it. -/
def applyCharLimit (worldbookCharLimit : Option Int) (content : String) : String :=
  let limit : Int := worldbookCharLimit.getD 60000
  if 0 < limit ∧ limit < (content.length : Int) then jsSubstringTo content limit.toNat
  else content

/-- The entries surviving the plugin-side filter: enabled in SillyTavern and
not recorded in `disabledWorldbookEntries`. -/
def userEnabledEntriesOf (s : WbSettings) (allEntries : List LoreEntry) : List LoreEntry :=
  allEntries.filter (fun e =>
    e.enabled && !(isEntryDisabled s.disabledWorldbookEntries e.bookName e.uid))

/-- The constant ("blue light") entries of the filtered set. -/
def blueLightEntriesOf (s : WbSettings) (allEntries : List LoreEntry) : List LoreEntry :=
  (userEnabledEntriesOf s allEntries).filter (fun e => e.type == "constant")

/-- The conditional ("green light") entries of the filtered set. -/
def pendingGreenLightsOf (s : WbSettings) (allEntries : List LoreEntry) : List LoreEntry :=
  (userEnabledEntriesOf s allEntries).filter (fun e => e.type != "constant")

/-- The lower-cased scan text: chat history plus the pending user message. -/
def chatHistoryOf (historyParts : List String) (userMessage : String) : String :=
  jsToLowerCase (String.intercalate "\n"
    (if userMessage ≠ "" then historyParts ++ [userMessage] else historyParts))

/-- The nonempty contents of the triggered entries, in activation order
(`finalContent` in the source). -/
def finalContentOf (s : WbSettings) (allEntries : List LoreEntry) (historyParts : List String)
    (userMessage : String) : List String :=
  ((activationLoop (chatHistoryOf historyParts userMessage) (blueLightEntriesOf s allEntries)
      (pendingGreenLightsOf s allEntries)
      ((pendingGreenLightsOf s allEntries).length + 1)).triggered.map
    LoreEntry.content).filter (fun c => c ≠ "")

/-- The fallback scan path of `getCombinedWorldbookContent` (core/lore.js),
from the collected entry list onward: filter to user-enabled entries, seed
the triggered set with the constant entries, run the keyword fixed-point
loop over the conditional entries, render the triggered contents joined by
the block separator, strip, and apply the character limit. `historyParts`
stands for the nonempty message texts of `context.chat`. -/
def getCombinedWorldbookContentFallback (s : WbSettings) (applyStripPatterns : String → String)
    (allEntries : List LoreEntry) (historyParts : List String) (userMessage : String) : String :=
  if allEntries.length = 0 then ""
  else if (userEnabledEntriesOf s allEntries).length = 0 then ""
  else if (finalContentOf s allEntries historyParts userMessage).length = 0 then ""
  else
    applyCharLimit s.worldbookCharLimit
      (stripConfiguredWorldInfoContent s applyStripPatterns
        (String.intercalate "\n\n---\n\n" (finalContentOf s allEntries historyParts userMessage)))

/-! ## Streaming reader (core/api.js, `fetchWithStreamAndTimeout`) -/

/-- `CHUNK_TIMEOUT` of `fetchWithStreamAndTimeout`. -/
def CHUNK_TIMEOUT : Nat := 25000

/-- The `setInterval` polling period of the watchdog. -/
def WATCHDOG_POLL_MS : Nat := 1000

/-- One received stream chunk: the time in milliseconds since the previous
read resolved, and the content increments its `data:` lines decode to (SSE
line buffering and JSON field extraction are abstracted; unparseable lines
contribute nothing). -/
structure SChunk where
  gapMs : Nat
  increments : List String
deriving DecidableEq, Repr

/-- Errors the stream call can surface to its caller. `timeoutErr` stands
for the watchdog's `流式传输超时` error and `noContent` for the
`流式传输未返回任何内容` error. -/
inductive StreamErr where
  | timeoutErr
  | noContent
deriving DecidableEq, Repr

/-- Caller-visible outcome of `fetchWithStreamAndTimeout` after a 2xx
response: the resolved value or error, plus whether `reader.releaseLock()`
ran. -/
structure StreamResult where
  outcome : Except StreamErr String
  readerReleased : Bool
deriving Repr

/-- The read loop of `fetchWithStreamAndTimeout` under JS timer semantics.
The watchdog's `checkTimeout` runs inside a `setInterval` callback: its
`throw` cannot reject the enclosing async function's promise, so its only
caller-visible effect is `reader.cancel()`, after which the pending
`reader.read()` resolves `done: true` and the loop exits normally with the
accumulator built so far. A gap of at least `CHUNK_TIMEOUT +
WATCHDOG_POLL_MS` guarantees a poll tick observes the stale
`lastChunkTime`, so such a chunk is never delivered. -/
def streamReadLoop (acc : String) : List SChunk → String
  | [] => acc
  | c :: rest =>
    if c.gapMs ≥ CHUNK_TIMEOUT + WATCHDOG_POLL_MS then acc
    else streamReadLoop (acc ++ String.join c.increments) rest

/-- `fetchWithStreamAndTimeout` after a 2xx response, as its caller observes
it: run the read loop, fail with the no-content error when nothing
accumulated, otherwise resolve with the trimmed accumulator. The `finally`
block always clears the watchdog and releases the reader. -/
def fetchWithStreamAndTimeout (chunks : List SChunk) : StreamResult :=
  let accumulatedContent := streamReadLoop "" chunks
  if accumulatedContent = "" then ⟨.error .noContent, true⟩
  else ⟨.ok (jsTrimStr accumulatedContent), true⟩

/-! ## Response normalization (core/api.js, `normalizeApiResponse`) -/

/-- A JavaScript value, as far as `normalizeApiResponse` inspects one. -/
inductive JVal where
  | vNull
  | vUndefined
  | vBool (b : Bool)
  | vNum (n : Int)
  | vStr (s : String)
  | vArr (items : List JVal)
  | vObj (fields : List (String × JVal))

/-- Property access `v.name` (undefined on missing fields and non-objects;
the guards of `normalizeApiResponse` never access properties of null). -/
def getField (v : JVal) (name : String) : JVal :=
  match v with
  | .vObj fields =>
    match fields.lookup name with
    | some w => w
    | none => .vUndefined
  | _ => .vUndefined

/-- JS truthiness. -/
def truthy : JVal → Bool
  | .vNull => false
  | .vUndefined => false
  | .vBool b => b
  | .vNum n => n != 0
  | .vStr s => s != ""
  | .vArr _ => true
  | .vObj _ => true

/-- Element access `v[0]`. -/
def index0 : JVal → JVal
  | .vArr (x :: _) => x
  | .vStr s =>
    match s.data with
    | c :: _ => .vStr (String.mk [c])
    | [] => .vUndefined
  | _ => .vUndefined

/-- `typeof v === 'object' && v !== null && !Array.isArray(v)`. -/
def isPlainObj : JVal → Bool
  | .vObj _ => true
  | _ => false

/-- `Object.hasOwn(v, name)` for objects. -/
def hasOwnField (v : JVal) (name : String) : Bool :=
  match v with
  | .vObj fields => (fields.lookup name).isSome
  | _ => false

/-- The `{ error: { message } }` value built for unparseable JSON. -/
def errShape (msg : String) : JVal :=
  .vObj [("error", .vObj [("message", .vStr msg)])]

/-- `choices[0].message?.content?.trim()`: optional chaining yields
undefined when `message` or `content` is nullish; calling `.trim()` on a
non-string throws (modelled as `Except.error`). -/
def optChainMessageContentTrim (choice0 : JVal) : Except Unit JVal :=
  match getField choice0 "message" with
  | .vNull => .ok .vUndefined
  | .vUndefined => .ok .vUndefined
  | m =>
    match getField m "content" with
    | .vNull => .ok .vUndefined
    | .vUndefined => .ok .vUndefined
    | .vStr s => .ok (.vStr (jsTrimStr s))
    | _ => .error ()

/-- `normalizeApiResponse` from core/api.js. `parseJson` abstracts
`JSON.parse` (`none` = parse throws); an `Except.error` result models a
TypeError thrown inside the function (`.trim()` on a non-string). -/
def normalizeApiResponse (parseJson : String → Option JVal) (responseData : JVal) :
    Except Unit JVal :=
  match (match responseData with
         | .vStr s =>
           match parseJson s with
           | some v => Sum.inr v
           | none => Sum.inl (errShape "Invalid JSON response")
         | v => Sum.inr v) with
  | Sum.inl earlyReturn => .ok earlyReturn
  | Sum.inr data0 =>
    let data :=
      if truthy data0 && isPlainObj (getField data0 "data") && hasOwnField (getField data0 "data") "data"
      then getField data0 "data"
      else data0
    if truthy data && truthy (getField data "choices") && truthy (index0 (getField data "choices")) then
      match optChainMessageContentTrim (index0 (getField data "choices")) with
      | .ok c => .ok (.vObj [("content", c)])
      | .error u => .error u
    else if truthy data && truthy (getField data "content") then
      match getField data "content" with
      | .vStr s => .ok (.vObj [("content", .vStr (jsTrimStr s))])
      | _ => .error ()
    else if truthy data && truthy (getField data "data") then
      .ok (.vObj [("data", getField data "data")])
    else if truthy data && truthy (getField data "error") then
      .ok (.vObj [("error", getField data "error")])
    else .ok data

/-- Does a value have the `{ content: string }` shape? -/
def isContentShape : JVal → Bool
  | .vObj [("content", .vStr _)] => true
  | _ => false

/-- Does a value have the `{ error: ... }` shape (one `error` field)? -/
def isErrorShape : JVal → Bool
  | .vObj [("error", _)] => true
  | _ => false

/-- Is a normalization outcome one of the two claimed shapes? -/
def resultInTwoShapes : Except Unit JVal → Bool
  | .ok v => isContentShape v || isErrorShape v
  | .error _ => false

/-! ## Chat-history pruning (`pruneQrfPlotHistory`) -/

/-- A chat message: the `qrf_plot` own property (when present) and an opaque
stand-in for every other field. -/
structure ChatMsg where
  qrf_plot : Option String
  rest : String
deriving DecidableEq, Repr

/-- The JS number `Number(keepLatestCount)` evaluates to. -/
inductive JsNum where
  | int (n : Int)
  | nan
  | posInf
  | negInf
deriving DecidableEq, Repr

/-- `Number.isFinite`. -/
def jsNumIsFinite : JsNum → Bool
  | .int _ => true
  | _ => false

/-- `retention <= 0` (false for NaN). -/
def jsNumLeZero : JsNum → Bool
  | .int n => decide (n ≤ 0)
  | .nan => false
  | .posInf => false
  | .negInf => true

/-- `delete chat[index].qrf_plot` on one message. -/
def clearQrfPlot (m : ChatMsg) : ChatMsg :=
  { m with qrf_plot := none }

/-- The index-collecting `for` loop of `pruneQrfPlotHistory`, with `i` the
index of the first element of `msgs`. -/
def collectPlotIndexes : List ChatMsg → Nat → List Nat
  | [], _ => []
  | m :: rest, i =>
    if m.qrf_plot.isSome then i :: collectPlotIndexes rest (i + 1)
    else collectPlotIndexes rest (i + 1)

/-- The mutation loop of `pruneQrfPlotHistory`: delete `qrf_plot` from the
messages whose index is listed in `toPrune` (indices counted from `i`). -/
def applyPruneAt (toPrune : List Nat) : List ChatMsg → Nat → List ChatMsg
  | [], _ => []
  | m :: rest, i =>
    (if i ∈ toPrune then clearQrfPlot m else m) :: applyPruneAt toPrune rest (i + 1)

/-- `pruneQrfPlotHistory` from the repository: `none` chat models a
non-array input; the result pairs the returned `removedCount` with the chat
after mutation. -/
def pruneQrfPlotHistory (chat : Option (List ChatMsg)) (keepLatestCount : JsNum) :
    Nat × Option (List ChatMsg) :=
  match chat with
  | none => (0, none)
  | some msgs =>
    if !jsNumIsFinite keepLatestCount || jsNumLeZero keepLatestCount then (0, some msgs)
    else
      let retention : Int :=
        match keepLatestCount with
        | .int n => n
        | _ => 0
      let plotIndexes := collectPlotIndexes msgs 0
      if (plotIndexes.length : Int) ≤ retention then (0, some msgs)
      else
        let indexesToPrune := plotIndexes.take (((plotIndexes.length : Int) - retention).toNat)
        (indexesToPrune.length, some (applyPruneAt indexesToPrune msgs 0))

/-- Number of messages carrying a `qrf_plot` property. -/
def qrfCount (msgs : List ChatMsg) : Nat :=
  (msgs.filter (fun m => m.qrf_plot.isSome)).length

/-- The claimed effect, written from the claim's words: delete the
`qrf_plot` property from the oldest `d` messages (by array index) that carry
one, leaving every other field and every other message unchanged. -/
def dropOldestQrf : Nat → List ChatMsg → List ChatMsg
  | _, [] => []
  | 0, msgs => msgs
  | d + 1, m :: rest =>
    if m.qrf_plot.isSome then clearQrfPlot m :: dropOldestQrf d rest
    else m :: dropOldestQrf (d + 1) rest

/-! ## Helper lemmas -/

theorem jsIncludes_eq_true {s sub : String} : jsIncludes s sub = true ↔ sub.data <:+: s.data := by
  simp [jsIncludes]

theorem validateKeywordsLoop_eq_true (content : String) :
    ∀ l : List String, validateKeywordsLoop content l = true ↔ ∀ kw ∈ l, kw.data <:+: content.data := by
  intro l
  induction l with
  | nil => simp [validateKeywordsLoop]
  | cons kw rest ih =>
    by_cases h : jsIncludes content kw = true
    · simp only [validateKeywordsLoop, if_pos h, ih, List.mem_cons]
      constructor
      · rintro hall k (rfl | hk)
        · exact jsIncludes_eq_true.mp h
        · exact hall k hk
      · intro hall k hk
        exact hall k (Or.inr hk)
    · simp only [validateKeywordsLoop, if_neg h]
      constructor
      · intro hfalse
        exact absurd hfalse (by simp)
      · intro hall
        exact absurd (jsIncludes_eq_true.mpr (hall kw (List.mem_cons_self kw rest))) h

theorem retryGo_lateNotice (call : Nat → CallResult) (validate : String → Bool)
    (maxRetries : Nat) :
    ∀ fuel attempt, (retryGo call validate maxRetries attempt fuel).lateNotice
      = lateNoticeSpec (retryGo call validate maxRetries attempt fuel).successAttempt := by
  intro fuel
  induction fuel with
  | zero => intro attempt; simp [retryGo, lateNoticeSpec]
  | succ fuel ih =>
    intro attempt
    simp only [retryGo]
    cases h : (call attempt).content with
    | none =>
      by_cases hlt : attempt < maxRetries
      · simp only [if_pos hlt]
        exact ih (attempt + 1)
      · simp [if_neg hlt, lateNoticeSpec]
    | some content =>
      by_cases hv : validate content = true
      · simp [hv, lateNoticeSpec]
      · by_cases hlt : attempt < maxRetries
        · simp only [Bool.not_eq_true] at hv
          simp only [hv, Bool.false_eq_true, if_false, if_pos hlt]
          exact ih (attempt + 1)
        · simp only [Bool.not_eq_true] at hv
          simp [hv, if_neg hlt, lateNoticeSpec]

/-! ## Claim theorems: retry/validation engine -/

/-- Configuration used for the retry-exhaustion scenario: endpoint set,
direct mode, no required keywords, `maxRetries = 3`. -/
def cfgRetry : ApiSettings := ⟨"https://api.example", "frontend", "", "", 3⟩

/-- A nonempty assembled message list. -/
def msgsOne : List Msg := [⟨"user", "hi"⟩]

/-- C6: keyword validation succeeds trivially on an empty required-keyword
list, and otherwise succeeds iff every required keyword occurs in the
content as an exact, case-sensitive substring; the spec's concrete cases
(`["A","B"]` against `"A"` fails, against `"A...B"` succeeds, and a
case-insensitive-only match does not pass) are included. -/
theorem claim_C6_keyword_validation :
    (∀ (kws : List String) (content : String),
      validateKeywords kws content = true ↔ ∀ kw ∈ kws, kw.data <:+: content.data)
    ∧ validateKeywords ["A", "B"] "A" = false
    ∧ validateKeywords ["A", "B"] "A...B" = true
    ∧ validateKeywords ["A"] "a" = false := by
  refine ⟨?_, by decide, by decide, by decide⟩
  intro kws content
  match kws with
  | [] => simp [validateKeywords]
  | kw :: rest =>
    simp only [validateKeywords, List.length_cons, Nat.succ_ne_zero, if_false]
    exact validateKeywordsLoop_eq_true content (kw :: rest)

/-- C7: with a transport that always yields null content and
`maxRetries = 3`, the retry loop of `callInterceptionApi` performs exactly 3
attempts and 3 network dispatches, sleeps the constant 1000 ms backoff
exactly between consecutive attempts (twice, never after the last), and
returns the terminal null; and for every run, the success-after-retry
notice is shown exactly when the successful attempt number exceeds 1. -/
theorem claim_C7_retry_exhaustion_and_late_success_signal :
    (callInterceptionApi cfgRetry msgsOne (fun _ => none)).attempts = 3
    ∧ (callInterceptionApi cfgRetry msgsOne (fun _ => none)).backoffsMs = [1000, 1000]
    ∧ (callInterceptionApi cfgRetry msgsOne (fun _ => none)).networkCalls = 3
    ∧ (callInterceptionApi cfgRetry msgsOne (fun _ => none)).result = none
    ∧ (∀ (cfg : ApiSettings) (msgs : List Msg) (transports : Nat → Option String),
        (callInterceptionApi cfg msgs transports).lateNotice
          = lateNoticeSpec (callInterceptionApi cfg msgs transports).successAttempt) := by
  refine ⟨by decide, by decide, by decide, by decide, ?_⟩
  intro cfg msgs transports
  unfold callInterceptionApi
  by_cases h : cfg.apiUrl = ""
  · simp [h, lateNoticeSpec]
  · simp only [h, if_false]
    exact retryGo_lateNotice _ _ _ _ _

instance : DecidableEq (Except StreamErr String) := fun x y =>
  match x, y with
  | .ok a, .ok b =>
    if h : a = b then .isTrue (congrArg Except.ok h)
    else .isFalse (fun hh => h (Except.ok.inj hh))
  | .error a, .error b =>
    if h : a = b then .isTrue (congrArg Except.error h)
    else .isFalse (fun hh => h (Except.error.inj hh))
  | .ok _, .error _ => .isFalse (fun hh => Except.noConfusion hh)
  | .error _, .ok _ => .isFalse (fun hh => Except.noConfusion hh)

/-- C9: the failing input — a chunk carrying `"He"` followed by a stall
longer than the liveness window. The caller of the embedded
`fetchWithStreamAndTimeout` observes a successful resolution with the
partial accumulator `"He"` (the reader is released by the `finally`), and no
input whatsoever makes the caller observe the watchdog's timeout error,
because its throw happens inside the `setInterval` callback. -/
theorem claim_C9_stalled_stream_returns_partial_content :
    (fetchWithStreamAndTimeout [⟨0, ["He"]⟩, ⟨27000, ["llo"]⟩]).outcome = .ok "He"
    ∧ (fetchWithStreamAndTimeout [⟨0, ["He"]⟩, ⟨27000, ["llo"]⟩]).readerReleased = true
    ∧ (∀ chunks : List SChunk,
        (fetchWithStreamAndTimeout chunks).outcome ≠ .error .timeoutErr) := by
  refine ⟨by decide, rfl, ?_⟩
  intro chunks
  unfold fetchWithStreamAndTimeout
  by_cases h : streamReadLoop "" chunks = ""
  · simp [h]
  · simp [h]

/-- A combined worldbook content of 60001 characters. -/
def bigContentC5 : String := String.mk (List.replicate 60001 'a')

theorem bigContentC5_length : bigContentC5.length = 60001 := by
  show (List.replicate 60001 'a').length = 60001
  rw [List.length_replicate]

/-- C5 counterexample: with the char-limit setting unset (`undefined`), the
claim says truncation is disabled, but the code defaults the limit to 60000
and truncates a 60001-character content to 60000 characters. -/
theorem claim_C5_counterexample :
    (applyCharLimit none bigContentC5).length = 60000
    ∧ bigContentC5.length = 60001
    ∧ applyCharLimit none bigContentC5 ≠ bigContentC5 := by
  have hlen : (applyCharLimit none bigContentC5).length = 60000 := by
    unfold applyCharLimit
    rw [if_pos]
    · show ((List.replicate 60001 'a').take 60000).length = 60000
      rw [List.length_take, List.length_replicate]
      omega
    · refine ⟨by norm_num, ?_⟩
      rw [bigContentC5_length]
      norm_num
  refine ⟨hlen, bigContentC5_length, fun heq => ?_⟩
  rw [heq, bigContentC5_length] at hlen
  exact absurd hlen (by norm_num)

/-- C5 (amended): the truncation step keeps the head of the content.
A configured limit of `0` disables truncation, but an unset limit does not:
it defaults to 60000. When the limit is positive and the content is longer,
the result is `substring(0, limit)` and has length exactly the limit;
content within the limit is returned unchanged. -/
theorem claim_C5_amended_char_limit :
    ∀ (lim : Int) (content : String),
      applyCharLimit (some 0) content = content
      ∧ applyCharLimit none content = applyCharLimit (some 60000) content
      ∧ (0 < lim → lim < (content.length : Int) →
          applyCharLimit (some lim) content = jsSubstringTo content lim.toNat
          ∧ (applyCharLimit (some lim) content).length = lim.toNat)
      ∧ ((content.length : Int) ≤ lim → applyCharLimit (some lim) content = content) := by
  intro lim content
  refine ⟨?_, rfl, ?_, ?_⟩
  · unfold applyCharLimit
    rw [if_neg]
    simp
  · intro h0 hlt
    have heq : applyCharLimit (some lim) content = jsSubstringTo content lim.toNat := by
      unfold applyCharLimit
      simp only [Option.getD_some]
      rw [if_pos ⟨h0, hlt⟩]
    refine ⟨heq, ?_⟩
    rw [heq]
    show (content.data.take lim.toNat).length = lim.toNat
    rw [List.length_take]
    have hdata : content.data.length = content.length := rfl
    omega
  · intro hle
    unfold applyCharLimit
    simp only [Option.getD_some]
    rw [if_neg]
    rintro ⟨h0, hlt⟩
    omega

/-- Witness for `claim_C5_amended_char_limit` at limit 2 and content
`"abcd"`. -/
theorem claim_C5_amended_char_limit_witness :
    applyCharLimit (some 2) "abcd" = jsSubstringTo "abcd" 2
    ∧ (applyCharLimit (some 2) "abcd").length = (2 : Int).toNat :=
  (claim_C5_amended_char_limit 2 "abcd").2.2.1 (by decide) (by decide)

theorem one_le_effMaxRetries (cfg : ApiSettings) : 1 ≤ effMaxRetries cfg := by
  unfold effMaxRetries
  split
  · omega
  · omega

theorem retryGo_constNone (validate : String → Bool) (m : Nat) :
    ∀ fuel a, a ≤ m → m - a < fuel →
      retryGo (fun _ => (⟨0, none⟩ : CallResult)) validate m a fuel
        = ⟨m - a + 1, List.replicate (m - a) 1000, 0, none, false, none⟩ := by
  intro fuel
  induction fuel with
  | zero => intro a _ hfuel; omega
  | succ fuel ih =>
    intro a ham hfuel
    by_cases hlt : a < m
    · have h1 : a + 1 ≤ m := hlt
      have h2 : m - (a + 1) < fuel := by omega
      simp only [retryGo, if_pos hlt, ih (a + 1) h1 h2]
      have hsub : m - a = (m - (a + 1)) + 1 := by omega
      rw [hsub, List.replicate_succ]
    · have ha : a = m := by omega
      simp [retryGo, if_neg hlt, ha]

/-- Configuration with no endpoint URL. -/
def cfgNoUrl : ApiSettings := ⟨"", "frontend", "", "", 3⟩

/-- Managed-profile (tavern) configuration with no selected profile. -/
def cfgTavernNoProfile : ApiSettings := ⟨"https://api.example", "tavern", "", "", 3⟩

/-- C2 counterexample: in tavern mode with no selected profile and
`maxRetries = 3`, the retry loop is not aborted: it performs 3 attempts and
2 backoff waits (although no network call is ever made), contradicting the
claim that no retry attempt or backoff wait occurs for this failure
class. -/
theorem claim_C2_counterexample :
    (callInterceptionApi cfgTavernNoProfile msgsOne (fun _ => some "ok")).attempts = 3
    ∧ (callInterceptionApi cfgTavernNoProfile msgsOne (fun _ => some "ok")).backoffsMs
        = [1000, 1000]
    ∧ (callInterceptionApi cfgTavernNoProfile msgsOne (fun _ => some "ok")).networkCalls = 0 := by
  refine ⟨by decide, by decide, by decide⟩

/-- C2 (amended): a missing endpoint URL halts before the retry loop (zero
attempts, zero backoffs, zero network calls). An empty assembled message
list, or a missing managed profile in the `tavern`/`perfect` modes, halts
each attempt before any network call — zero network dispatches for any
`maxRetries` — but does not abort the retry loop: all `effMaxRetries`
attempts run, separated by the 1-second backoff, ending in the terminal
null. -/
theorem claim_C2_amended_configuration_halts :
    ∀ (cfg : ApiSettings) (msgs : List Msg) (transports : Nat → Option String),
      (cfg.apiUrl = "" → callInterceptionApi cfg msgs transports = ⟨0, [], 0, none, false, none⟩)
      ∧ (cfg.apiUrl ≠ "" → msgs = [] →
          callInterceptionApi cfg msgs transports
            = ⟨effMaxRetries cfg, List.replicate (effMaxRetries cfg - 1) 1000, 0, none, false, none⟩)
      ∧ (cfg.apiUrl ≠ "" → (cfg.apiMode = "tavern" ∨ cfg.apiMode = "perfect") →
          cfg.tavernProfile = "" →
          callInterceptionApi cfg msgs transports
            = ⟨effMaxRetries cfg, List.replicate (effMaxRetries cfg - 1) 1000, 0, none, false, none⟩) := by
  intro cfg msgs transports
  have hm := one_le_effMaxRetries cfg
  have hrun : ∀ call : Nat → CallResult, (∀ a, call a = ⟨0, none⟩) →
      retryGo call (validateKeywords (parseRequiredKeywords cfg.requiredKeywords))
          (effMaxRetries cfg) 1 (effMaxRetries cfg)
        = ⟨effMaxRetries cfg, List.replicate (effMaxRetries cfg - 1) 1000, 0, none, false, none⟩ := by
    intro call hcall
    have hfun : call = fun _ => (⟨0, none⟩ : CallResult) := funext hcall
    rw [hfun, retryGo_constNone _ _ _ 1 hm (by omega)]
    have : effMaxRetries cfg - 1 + 1 = effMaxRetries cfg := by omega
    rw [this]
  refine ⟨?_, ?_, ?_⟩
  · intro hurl
    simp [callInterceptionApi, hurl]
  · intro hurl hmsgs
    unfold callInterceptionApi
    rw [if_neg hurl]
    exact hrun _ (fun a => by simp [makeApiCall, hmsgs])
  · intro hurl hmode hprof
    unfold callInterceptionApi
    rw [if_neg hurl]
    refine hrun _ (fun a => ?_)
    unfold makeApiCall
    rcases hmode with h | h
    · by_cases hlen : msgs.length = 0
      · rw [if_pos hlen]
      · rw [if_neg hlen, if_pos h, if_pos hprof]
    · by_cases hlen : msgs.length = 0
      · rw [if_pos hlen]
      · by_cases ht : cfg.apiMode = "tavern"
        · rw [if_neg hlen, if_pos ht, if_pos hprof]
        · rw [if_neg hlen, if_neg ht, if_pos h, if_pos hprof]

/-- Witness for `claim_C2_amended_configuration_halts`: the three failure
classes at concrete inputs. -/
theorem claim_C2_amended_configuration_halts_witness :
    callInterceptionApi cfgNoUrl msgsOne (fun _ => some "ok") = ⟨0, [], 0, none, false, none⟩
    ∧ callInterceptionApi cfgRetry [] (fun _ => some "ok")
        = ⟨effMaxRetries cfgRetry, List.replicate (effMaxRetries cfgRetry - 1) 1000, 0, none,
            false, none⟩
    ∧ callInterceptionApi cfgTavernNoProfile msgsOne (fun _ => some "ok")
        = ⟨effMaxRetries cfgTavernNoProfile,
            List.replicate (effMaxRetries cfgTavernNoProfile - 1) 1000, 0, none, false, none⟩ :=
  ⟨(claim_C2_amended_configuration_halts cfgNoUrl msgsOne (fun _ => some "ok")).1 rfl,
   (claim_C2_amended_configuration_halts cfgRetry [] (fun _ => some "ok")).2.1 (by decide) rfl,
   (claim_C2_amended_configuration_halts cfgTavernNoProfile msgsOne (fun _ => some "ok")).2.2
     (by decide) (Or.inl rfl) rfl⟩

/-! ## Lemmas on the activation fixed point -/

theorem passFoldl_eq (ch full : String) :
    ∀ (pend : List LoreEntry) (t p : List LoreEntry) (c : Bool),
      pend.foldl (passStepFn ch full) ⟨t, p, c⟩
        = ⟨t ++ pend.filter (entryTriggered ch full),
           p ++ pend.filter (fun e => !entryTriggered ch full e),
           c || pend.any (entryTriggered ch full)⟩ := by
  intro pend
  induction pend with
  | nil => intro t p c; simp
  | cons e rest ih =>
    intro t p c
    by_cases he : entryTriggered ch full e = true
    · rw [List.foldl_cons, show passStepFn ch full ⟨t, p, c⟩ e = ⟨t ++ [e], p, true⟩ by
        simp [passStepFn, he]]
      rw [ih]
      simp [List.filter_cons, he]
    · simp only [Bool.not_eq_true] at he
      rw [List.foldl_cons, show passStepFn ch full ⟨t, p, c⟩ e = ⟨t, p ++ [e], c⟩ by
        simp [passStepFn, he]]
      rw [ih]
      simp [List.filter_cons, List.any_cons, he]

/-- The corpus an ordinary (non-`exclude_recursion`) entry is matched
against in a pass that starts from `triggered`. -/
def fullSearchTextOf (chatHistory : String) (triggered : List LoreEntry) : String :=
  chatHistory ++ "\n" ++ recursionSourceContent triggered

theorem activationPass_eq (ch : String) (act pend : List LoreEntry) :
    activationPass ch act pend
      = ⟨act ++ pend.filter (entryTriggered ch (fullSearchTextOf ch act)),
         pend.filter (fun e => !entryTriggered ch (fullSearchTextOf ch act) e),
         pend.any (entryTriggered ch (fullSearchTextOf ch act))⟩ := by
  unfold activationPass fullSearchTextOf
  rw [passFoldl_eq]
  simp

theorem length_filter_not_lt_of_any {l : List LoreEntry} {f : LoreEntry → Bool}
    (h : l.any f = true) : (l.filter (fun e => !f e)).length < l.length := by
  induction l with
  | nil => simp at h
  | cons e rest ih =>
    by_cases he : f e = true
    · have hle := List.length_filter_le (fun e => !f e) rest
      simp [List.filter_cons, he]
      omega
    · simp only [Bool.not_eq_true] at he
      simp only [List.any_cons, he, Bool.false_or] at h
      have := ih h
      simp [List.filter_cons, he]
      omega

theorem activationLoop_triggered_sub (ch : String) :
    ∀ (fuel : Nat) (act pend : List LoreEntry),
      ∃ tail, (activationLoop ch act pend fuel).triggered = act ++ tail
        ∧ ∀ e ∈ tail, e ∈ pend := by
  intro fuel
  induction fuel with
  | zero =>
    intro act pend
    exact ⟨[], by simp [activationLoop], by simp⟩
  | succ fuel ih =>
    intro act pend
    simp only [activationLoop, activationPass_eq]
    by_cases hc : pend.any (entryTriggered ch (fullSearchTextOf ch act)) = true
    · simp only [hc, if_true]
      obtain ⟨t2, ht2, hmem2⟩ := ih (act ++ pend.filter (entryTriggered ch (fullSearchTextOf ch act)))
        (pend.filter (fun e => !entryTriggered ch (fullSearchTextOf ch act) e))
      refine ⟨pend.filter (entryTriggered ch (fullSearchTextOf ch act)) ++ t2, ?_, ?_⟩
      · simp only [ht2, List.append_assoc]
      · intro e he
        rcases List.mem_append.mp he with h | h
        · exact List.mem_of_mem_filter h
        · exact List.mem_of_mem_filter (hmem2 e h)
    · simp only [hc, if_false]
      exact ⟨pend.filter (entryTriggered ch (fullSearchTextOf ch act)), rfl,
        fun e he => List.mem_of_mem_filter he⟩

theorem activationLoop_passes_le (ch : String) :
    ∀ (fuel : Nat) (act pend : List LoreEntry), pend.length < fuel →
      (activationLoop ch act pend fuel).passes ≤ pend.length + 1 := by
  intro fuel
  induction fuel with
  | zero => intro act pend h; omega
  | succ fuel ih =>
    intro act pend h
    simp only [activationLoop, activationPass_eq]
    by_cases hc : pend.any (entryTriggered ch (fullSearchTextOf ch act)) = true
    · simp only [hc, if_true]
      have hlt := length_filter_not_lt_of_any hc
      have hrec := ih (act ++ pend.filter (entryTriggered ch (fullSearchTextOf ch act)))
        (pend.filter (fun e => !entryTriggered ch (fullSearchTextOf ch act) e)) (by omega)
      omega
    · simp only [Bool.not_eq_true] at hc
      simp only [hc, Bool.false_eq_true, if_false]
      omega

theorem activationLoop_nodup (ch : String) :
    ∀ (fuel : Nat) (act pend : List LoreEntry), (act ++ pend).Nodup →
      (activationLoop ch act pend fuel).triggered.Nodup := by
  intro fuel
  induction fuel with
  | zero =>
    intro act pend h
    simp only [activationLoop]
    exact h.of_append_left
  | succ fuel ih =>
    intro act pend h
    have hperm : (act ++ (pend.filter (entryTriggered ch (fullSearchTextOf ch act))
        ++ pend.filter (fun e => !entryTriggered ch (fullSearchTextOf ch act) e))).Nodup := by
      refine ((List.filter_append_perm _ pend).append_left act).symm.nodup ?_
      exact h
    rw [← List.append_assoc] at hperm
    simp only [activationLoop, activationPass_eq]
    by_cases hc : pend.any (entryTriggered ch (fullSearchTextOf ch act)) = true
    · simp only [hc, if_true]
      exact ih _ _ hperm
    · simp only [hc, if_false]
      exact hperm.of_append_left

theorem activationLoop_fuel_indep (ch : String) :
    ∀ (f : Nat) (g : Nat) (act pend : List LoreEntry),
      pend.length < f → pend.length < g →
      activationLoop ch act pend f = activationLoop ch act pend g := by
  intro f
  induction f with
  | zero => intro g act pend hf; omega
  | succ f ih =>
    intro g act pend hf hg
    match g with
    | 0 => omega
    | g + 1 =>
      simp only [activationLoop, activationPass_eq]
      by_cases hc : pend.any (entryTriggered ch (fullSearchTextOf ch act)) = true
      · simp only [hc, if_true]
        have hlt := length_filter_not_lt_of_any hc
        rw [ih g _ _ (by omega) (by omega)]
      · simp only [Bool.not_eq_true] at hc
        simp only [hc, Bool.false_eq_true, if_false]

/-! ## Claim theorems: activation resolver -/

/-- The claim's matching predicate, written from the spec's words: an entry
with `excludeFromRecursionSource` is matched only against the (case-folded)
recent chat text; every other conditional entry is matched against the
recent text concatenated with the joined content of the currently active
entries whose `preventRecursion` flag is false; a match is some keyword
occurring as a substring of that corpus. -/
def MatchesSpec (recentText : String) (active : List LoreEntry) (e : LoreEntry) : Prop :=
  ∃ kw ∈ getEntryKeywords e,
    kw.data <:+:
      (if e.exclude_recursion then recentText
       else recentText ++ "\n" ++
         jsToLowerCase (String.intercalate "\n"
           ((active.filter (fun a => a.prevent_recursion = false)).map LoreEntry.content))).data

instance (recentText : String) (active : List LoreEntry) (e : LoreEntry) :
    Decidable (MatchesSpec recentText active e) := by
  unfold MatchesSpec
  infer_instance

theorem specCorpus_eq (active : List LoreEntry) :
    jsToLowerCase (String.intercalate "\n"
      ((active.filter (fun a => a.prevent_recursion = false)).map LoreEntry.content))
      = recursionSourceContent active := by
  unfold recursionSourceContent
  have hfil : active.filter (fun a => decide (a.prevent_recursion = false))
      = active.filter (fun e => !e.prevent_recursion) := by
    apply List.filter_congr
    intro a _
    cases h : a.prevent_recursion
    · simp [h]
    · simp [h]
  rw [hfil]

theorem entryTriggered_iff_matchesSpec (recentText : String) (active : List LoreEntry)
    (e : LoreEntry) :
    entryTriggered recentText (fullSearchTextOf recentText active) e = true
      ↔ MatchesSpec recentText active e := by
  unfold entryTriggered MatchesSpec fullSearchTextOf
  rw [specCorpus_eq]
  rw [Bool.and_eq_true, List.any_eq_true]
  constructor
  · rintro ⟨-, kw, hmem, hg⟩
    refine ⟨kw, hmem, ?_⟩
    cases hex : e.exclude_recursion
    · simp only [hex, Bool.false_eq_true, if_false] at hg ⊢
      exact jsIncludes_eq_true.mp hg
    · simp only [hex, if_true] at hg ⊢
      exact jsIncludes_eq_true.mp hg
  · rintro ⟨kw, hmem, hp⟩
    refine ⟨by simpa using List.length_pos_of_mem hmem, kw, hmem, ?_⟩
    cases hex : e.exclude_recursion
    · simp only [hex, Bool.false_eq_true, if_false] at hp ⊢
      exact jsIncludes_eq_true.mpr hp
    · simp only [hex, if_true] at hp ⊢
      exact jsIncludes_eq_true.mpr hp

theorem entryTriggered_eq_decide (recentText : String) (active : List LoreEntry)
    (e : LoreEntry) :
    entryTriggered recentText (fullSearchTextOf recentText active) e
      = decide (MatchesSpec recentText active e) := by
  by_cases hp : MatchesSpec recentText active e
  · rw [decide_eq_true hp]
    exact (entryTriggered_iff_matchesSpec recentText active e).mpr hp
  · rw [decide_eq_false hp]
    by_contra hne
    have hb : entryTriggered recentText (fullSearchTextOf recentText active) e = true := by
      cases h : entryTriggered recentText (fullSearchTextOf recentText active) e
      · exact absurd h hne
      · rfl
    exact hp ((entryTriggered_iff_matchesSpec recentText active e).mp hb)

/-- C3: in every pass of the activation fixed-point loop, exactly the
pending entries satisfying `MatchesSpec` move to the triggered set (in
order), and the rest stay pending: an `exclude_recursion` entry is matched
only against the recent chat text, every other entry against the recent
text plus the joined content of the currently active entries whose
`prevent_recursion` flag is false, a match being a keyword occurring as a
substring. -/
theorem claim_C3_recursion_source_corpus :
    ∀ (recentText : String) (active pending : List LoreEntry),
      (activationPass recentText active pending).triggered
        = active ++ pending.filter (fun e => decide (MatchesSpec recentText active e))
      ∧ (activationPass recentText active pending).nextPending
        = pending.filter (fun e => !(decide (MatchesSpec recentText active e))) := by
  intro recentText active pending
  rw [activationPass_eq]
  have hfun : ∀ e ∈ pending,
      entryTriggered recentText (fullSearchTextOf recentText active) e
        = decide (MatchesSpec recentText active e) :=
    fun e _ => entryTriggered_eq_decide recentText active e
  constructor
  · simp only
    rw [List.filter_congr hfun]
  · simp only
    refine List.filter_congr (fun e he => ?_)
    rw [hfun e he]

/-- A conditional entry whose keyword matches the chat text. -/
def entryChainC4 : LoreEntry :=
  ⟨3, "book", "lore body", ["trigger"], [], "selective", false, false, true,
    "before_char", 0, 0, "system"⟩

/-- C4 counterexample: a single conditional entry whose keyword occurs in
the chat takes 2 passes of the loop (one that activates it and the final
no-change pass), exceeding the claimed bound of `|entries| = 1` passes. The
fuel argument is `pending.length + 1`, exactly what the resolver passes. -/
theorem claim_C4_counterexample :
    (activationLoop "trigger" [] [entryChainC4] ([entryChainC4].length + 1)).passes = 2
    ∧ ¬((activationLoop "trigger" [] [entryChainC4] ([entryChainC4].length + 1)).passes
          ≤ [entryChainC4].length) := by
  refine ⟨by decide, by decide⟩

/-- C4 (amended): for any finite entry set the fixed-point loop terminates
— the result is independent of any sufficient fuel, i.e. of running the
source's unbounded `while (true)` — within at most `|pending| + 1` passes
(every pass but the last activates at least one new entry), and no entry is
ever activated twice: the final triggered list is duplicate-free. -/
theorem claim_C4_amended_termination :
    ∀ (recentText : String) (active pending : List LoreEntry) (fuel : Nat),
      pending.length < fuel → (active ++ pending).Nodup →
      (activationLoop recentText active pending fuel).passes ≤ pending.length + 1
      ∧ (activationLoop recentText active pending fuel).triggered.Nodup
      ∧ activationLoop recentText active pending fuel
          = activationLoop recentText active pending (pending.length + 1) := by
  intro recentText active pending fuel hf hn
  exact ⟨activationLoop_passes_le recentText fuel active pending hf,
    activationLoop_nodup recentText fuel active pending hn,
    activationLoop_fuel_indep recentText fuel (pending.length + 1) active pending hf
      (by omega)⟩

/-- Witness for `claim_C4_amended_termination` at one conditional entry. -/
theorem claim_C4_amended_termination_witness :
    (activationLoop "trigger" [] [entryChainC4] 2).passes ≤ [entryChainC4].length + 1
    ∧ (activationLoop "trigger" [] [entryChainC4] 2).triggered.Nodup
    ∧ activationLoop "trigger" [] [entryChainC4] 2
        = activationLoop "trigger" [] [entryChainC4] ([entryChainC4].length + 1) :=
  claim_C4_amended_termination "trigger" [] [entryChainC4] 2 (by decide) (by decide)

/-- Does `s` start with `p`? -/
def startsWithStr (s p : String) : Bool :=
  s.data.take p.data.length == p.data

/-- A constant entry carrying the After position marker. -/
def entryAfterC1 : LoreEntry :=
  ⟨1, "book", "AFTERCONTENT", [], [], "constant", false, false, true,
    "after_char", 0, 0, "system"⟩

/-- A constant entry carrying the Before position marker. -/
def entryBeforeC1 : LoreEntry :=
  ⟨2, "book", "BEFORECONTENT", [], [], "constant", false, false, true,
    "before_char", 0, 0, "system"⟩

/-- Plain settings: strip disabled, char limit unset, nothing disabled. -/
def wbSettingsPlain : WbSettings := ⟨false, none, []⟩

/-- C1 counterexample: two activated entries, the first carrying the After
position and the second the Before position; the rendered block starts with
the After entry's content and not with the Before entry's content — the
renderer emits activation order and ignores `position`, so Before content
does not precede After content. -/
theorem claim_C1_counterexample :
    getCombinedWorldbookContentFallback wbSettingsPlain id [entryAfterC1, entryBeforeC1] [] ""
      = "AFTERCONTENT\n\n---\n\nBEFORECONTENT"
    ∧ startsWithStr (getCombinedWorldbookContentFallback wbSettingsPlain id
        [entryAfterC1, entryBeforeC1] [] "") "AFTERCONTENT" = true
    ∧ startsWithStr (getCombinedWorldbookContentFallback wbSettingsPlain id
        [entryAfterC1, entryBeforeC1] [] "") "BEFORECONTENT" = false := by
  refine ⟨by decide, by decide, by decide⟩

theorem applyCharLimit_empty (l : Option Int) : applyCharLimit l "" = "" := by
  unfold applyCharLimit
  rw [if_neg]
  rintro ⟨h0, hlt⟩
  have hz : ("" : String).length = 0 := rfl
  rw [hz] at hlt
  omega

/-- C1 (amended): the rendered knowledge block of the fallback resolver is
the pipeline (join with the block separator, strip, char-limit) applied to
the contents of the constant entries — in their filtered input order —
followed by some of the conditional entries, in the order the fixed-point
loop triggered them. No `position`/`depth`/`order`/`role`-based grouping or
reordering takes place. -/
theorem claim_C1_amended_render_order :
    ∀ (s : WbSettings) (applyStripPatterns : String → String) (entries : List LoreEntry)
      (historyParts : List String) (userMessage : String),
      ∃ conds : List LoreEntry,
        (∀ e ∈ conds, e ∈ pendingGreenLightsOf s entries)
        ∧ getCombinedWorldbookContentFallback s applyStripPatterns entries historyParts
            userMessage
          = applyCharLimit s.worldbookCharLimit
              (stripConfiguredWorldInfoContent s applyStripPatterns
                (String.intercalate "\n\n---\n\n"
                  (((blueLightEntriesOf s entries ++ conds).map LoreEntry.content).filter
                    (fun c => c ≠ "")))) := by
  intro s f entries hp um
  obtain ⟨tail, htail, hmem⟩ := activationLoop_triggered_sub (chatHistoryOf hp um)
    ((pendingGreenLightsOf s entries).length + 1) (blueLightEntriesOf s entries)
    (pendingGreenLightsOf s entries)
  have hfinal : finalContentOf s entries hp um
      = (((blueLightEntriesOf s entries ++ tail).map LoreEntry.content).filter
          (fun c => c ≠ "")) := by
    unfold finalContentOf
    rw [htail]
  refine ⟨tail, hmem, ?_⟩
  unfold getCombinedWorldbookContentFallback
  by_cases h0 : entries.length = 0
  · rw [if_pos h0]
    have he : entries = [] := List.length_eq_zero.mp h0
    subst he
    rw [← hfinal]
    have hfe : finalContentOf s [] hp um = [] := by
      rw [hfinal]
      have : blueLightEntriesOf s [] = [] := rfl
      rw [this, List.nil_append]
      have htl : tail = [] := by
        cases htl : tail with
        | nil => rfl
        | cons x xs =>
          have := hmem x (by rw [htl]; exact List.mem_cons_self x xs)
          simp [pendingGreenLightsOf, userEnabledEntriesOf] at this
      rw [htl]
      rfl
    rw [hfe]
    rw [show String.intercalate "\n\n---\n\n" ([] : List String) = "" from rfl]
    rw [show stripConfiguredWorldInfoContent s f "" = "" by
      unfold stripConfiguredWorldInfoContent; rw [if_pos rfl]]
    rw [applyCharLimit_empty]
  · rw [if_neg h0]
    by_cases h1 : (userEnabledEntriesOf s entries).length = 0
    · rw [if_pos h1]
      have hnil : userEnabledEntriesOf s entries = [] := List.length_eq_zero.mp h1
      rw [← hfinal]
      have hfe : finalContentOf s entries hp um = [] := by
        rw [hfinal]
        have hblue : blueLightEntriesOf s entries = [] := by
          unfold blueLightEntriesOf
          rw [hnil]
          rfl
        rw [hblue, List.nil_append]
        have htl : tail = [] := by
          cases htl : tail with
          | nil => rfl
          | cons x xs =>
            have hx := hmem x (by rw [htl]; exact List.mem_cons_self x xs)
            unfold pendingGreenLightsOf at hx
            rw [hnil] at hx
            simp at hx
        rw [htl]
        rfl
      rw [hfe]
      rw [show String.intercalate "\n\n---\n\n" ([] : List String) = "" from rfl]
      rw [show stripConfiguredWorldInfoContent s f "" = "" by
        unfold stripConfiguredWorldInfoContent; rw [if_pos rfl]]
      rw [applyCharLimit_empty]
    · rw [if_neg h1]
      by_cases h2 : (finalContentOf s entries hp um).length = 0
      · rw [if_pos h2]
        have hfe : finalContentOf s entries hp um = [] := List.length_eq_zero.mp h2
        rw [hfinal] at hfe
        rw [hfe]
        rw [show String.intercalate "\n\n---\n\n" ([] : List String) = "" from rfl]
        rw [show stripConfiguredWorldInfoContent s f "" = "" by
          unfold stripConfiguredWorldInfoContent; rw [if_pos rfl]]
        rw [applyCharLimit_empty]
      · rw [if_neg h2]
        rw [hfinal]

/-! ## Claim theorems: response normalization -/

/-- A model-listing response: an object whose `data` field holds an array. -/
def modelsResponseC8 : JVal :=
  .vObj [("data", .vArr [.vObj [("id", .vStr "model-a")]])]

/-- C8 counterexample: a response object whose `data` field is an array (the
`/v1/models` case handled by the function's own `data` branch) normalizes to
`{ data: ... }` — neither `{ content: string }` nor `{ error: ... }`, so the
function does not map every input into one of exactly two shapes. -/
theorem claim_C8_counterexample :
    normalizeApiResponse (fun _ => none) modelsResponseC8
      = .ok (.vObj [("data", .vArr [.vObj [("id", .vStr "model-a")]])])
    ∧ resultInTwoShapes (normalizeApiResponse (fun _ => none) modelsResponseC8) = false :=
  ⟨rfl, rfl⟩

/-- C8 (amended): the recognized response families do normalize to the two
shapes — an unparseable string payload to `{ error: { message } }`, a
`choices[0].message.content` string and a `content` string to
`{ content: string }`, an `error` field to `{ error: ... }`, also through
the `data.data` unwrapping — but a response with a truthy `data` field
yields a third shape `{ data: ... }`, and a value matching no pattern (for
example a bare number) is returned unchanged. -/
theorem claim_C8_amended_normalization_shapes :
    ∀ (s c msg : String) (items : List JVal) (n : Int),
      normalizeApiResponse (fun _ => none) (.vStr s) = .ok (errShape "Invalid JSON response")
      ∧ normalizeApiResponse (fun _ => none)
          (.vObj [("choices", .vArr [.vObj [("message", .vObj [("content", .vStr c)])]])])
          = .ok (.vObj [("content", .vStr (jsTrimStr c))])
      ∧ normalizeApiResponse (fun _ => none) (.vObj [("content", .vStr c)])
          = .ok (.vObj [("content", .vStr (jsTrimStr c))])
      ∧ normalizeApiResponse (fun _ => none) (.vObj [("error", .vObj [("message", .vStr msg)])])
          = .ok (.vObj [("error", .vObj [("message", .vStr msg)])])
      ∧ normalizeApiResponse (fun _ => none) (.vObj [("data", .vArr items)])
          = .ok (.vObj [("data", .vArr items)])
      ∧ normalizeApiResponse (fun _ => none) (.vObj [("data", .vObj [("data", .vArr items)])])
          = .ok (.vObj [("data", .vArr items)])
      ∧ normalizeApiResponse (fun _ => none) (.vNum n) = .ok (.vNum n) := by
  intro s c msg items n
  refine ⟨rfl, rfl, ?_, rfl, rfl, rfl, ?_⟩
  · by_cases hc : c = ""
    · subst hc
      rfl
    · have hne : (c != "") = true := by
        simp [bne, hc]
      simp [normalizeApiResponse, getField, truthy, isPlainObj, hasOwnField, index0,
        List.lookup, hne]
  · by_cases hn : n = 0
    · subst hn
      rfl
    · have hne : (n != 0) = true := by
        simp [bne, hn]
      simp [normalizeApiResponse, getField, truthy, isPlainObj, hasOwnField, index0, hne]

/-! ## Claim theorems: chat-history pruning -/

theorem applyPruneAt_nil : ∀ (msgs : List ChatMsg) (i : Nat), applyPruneAt [] msgs i = msgs := by
  intro msgs
  induction msgs with
  | nil => intro i; rfl
  | cons m rest ih =>
    intro i
    simp only [applyPruneAt, List.not_mem_nil, if_false, ih]

theorem collectPlotIndexes_ge :
    ∀ (msgs : List ChatMsg) (i j : Nat), j ∈ collectPlotIndexes msgs i → i ≤ j := by
  intro msgs
  induction msgs with
  | nil => intro i j h; simp [collectPlotIndexes] at h
  | cons m rest ih =>
    intro i j h
    by_cases hq : m.qrf_plot.isSome = true
    · rw [collectPlotIndexes, if_pos hq] at h
      rcases List.mem_cons.mp h with rfl | h2
      · exact le_refl j
      · exact le_trans (Nat.le_succ i) (ih (i + 1) j h2)
    · rw [collectPlotIndexes, if_neg hq] at h
      exact le_trans (Nat.le_succ i) (ih (i + 1) j h)

theorem collectPlotIndexes_length :
    ∀ (msgs : List ChatMsg) (i : Nat), (collectPlotIndexes msgs i).length = qrfCount msgs := by
  intro msgs
  induction msgs with
  | nil => intro i; rfl
  | cons m rest ih =>
    intro i
    by_cases hq : m.qrf_plot.isSome = true
    · rw [collectPlotIndexes, if_pos hq]
      simp only [List.length_cons, ih]
      simp [qrfCount, List.filter_cons, hq]
    · rw [collectPlotIndexes, if_neg hq]
      rw [ih]
      simp only [Bool.not_eq_true] at hq
      simp [qrfCount, List.filter_cons, hq]

theorem applyPruneAt_cons_lt :
    ∀ (msgs : List ChatMsg) (x : Nat) (S : List Nat) (i : Nat), x < i →
      applyPruneAt (x :: S) msgs i = applyPruneAt S msgs i := by
  intro msgs
  induction msgs with
  | nil => intro x S i h; rfl
  | cons m rest ih =>
    intro x S i h
    simp only [applyPruneAt]
    rw [ih x S (i + 1) (by omega)]
    have hhead : (if i ∈ x :: S then clearQrfPlot m else m) = (if i ∈ S then clearQrfPlot m else m) := by
      refine if_congr ?_ rfl rfl
      simp [List.mem_cons, show ¬ i = x by omega]
    rw [hhead]

theorem dropOldestQrf_zero : ∀ msgs : List ChatMsg, dropOldestQrf 0 msgs = msgs := by
  intro msgs
  cases msgs with
  | nil => rfl
  | cons m rest => rfl

theorem applyPruneAt_take_collect :
    ∀ (msgs : List ChatMsg) (i d : Nat),
      applyPruneAt ((collectPlotIndexes msgs i).take d) msgs i = dropOldestQrf d msgs := by
  intro msgs
  induction msgs with
  | nil =>
    intro i d
    cases d with
    | zero => rfl
    | succ e => rfl
  | cons m rest ih =>
    intro i d
    by_cases hq : m.qrf_plot.isSome = true
    · rw [collectPlotIndexes, if_pos hq]
      cases d with
      | zero =>
        rw [List.take_zero, applyPruneAt_nil, dropOldestQrf_zero]
      | succ e =>
        rw [List.take_succ_cons]
        simp only [applyPruneAt]
        rw [if_pos (List.mem_cons_self i _)]
        rw [applyPruneAt_cons_lt rest i _ (i + 1) (by omega)]
        rw [ih (i + 1) e]
        simp only [dropOldestQrf, hq, if_true]
    · rw [collectPlotIndexes, if_neg hq]
      simp only [applyPruneAt]
      have hnot : ¬ i ∈ (collectPlotIndexes rest (i + 1)).take d := by
        intro hmem
        have := collectPlotIndexes_ge rest (i + 1) i (List.mem_of_mem_take hmem)
        omega
      rw [if_neg hnot]
      rw [ih (i + 1) d]
      simp only [Bool.not_eq_true] at hq
      cases d with
      | zero => rw [dropOldestQrf_zero, dropOldestQrf_zero]
      | succ e => simp only [dropOldestQrf, hq, Bool.false_eq_true, if_false]

/-- C10: `pruneQrfPlotHistory` deletes the `qrf_plot` property from exactly
the oldest `count − k` qrf-carrying messages (by array index) when the
retention `k` is a finite number `> 0` and more than `k` messages carry the
property, leaving the latest `k` of them and every other field of every
message unchanged, and returns the number pruned; in every other case
(non-array chat, non-finite or non-positive `k`, or at most `k` carriers) it
returns 0 and mutates nothing. -/
theorem claim_C10_prune_qrf_plot_history :
    ∀ (msgs : List ChatMsg) (n : Int),
      (0 < n → n.toNat < qrfCount msgs →
        pruneQrfPlotHistory (some msgs) (.int n)
          = (qrfCount msgs - n.toNat,
             some (dropOldestQrf (qrfCount msgs - n.toNat) msgs)))
      ∧ (0 < n → qrfCount msgs ≤ n.toNat →
        pruneQrfPlotHistory (some msgs) (.int n) = (0, some msgs))
      ∧ (∀ k : JsNum, jsNumIsFinite k = false ∨ jsNumLeZero k = true →
        pruneQrfPlotHistory (some msgs) k = (0, some msgs))
      ∧ (∀ k : JsNum, pruneQrfPlotHistory none k = (0, none)) := by
  intro msgs n
  have hlen := collectPlotIndexes_length msgs 0
  refine ⟨?_, ?_, ?_, fun k => rfl⟩
  · intro hpos hcount
    have hguard : (!jsNumIsFinite (JsNum.int n) || jsNumLeZero (JsNum.int n)) = false := by
      simp [jsNumIsFinite, jsNumLeZero]
      omega
    unfold pruneQrfPlotHistory
    rw [hguard]
    simp only [Bool.false_eq_true, if_false]
    rw [if_neg (show ¬ (((collectPlotIndexes msgs 0).length : Int) ≤ n) by
      rw [hlen]; omega)]
    have hd : (((collectPlotIndexes msgs 0).length : Int) - n).toNat
        = qrfCount msgs - n.toNat := by
      rw [hlen]; omega
    rw [hd]
    have htl : ((collectPlotIndexes msgs 0).take (qrfCount msgs - n.toNat)).length
        = qrfCount msgs - n.toNat := by
      rw [List.length_take, hlen]
      omega
    rw [htl, applyPruneAt_take_collect msgs 0 (qrfCount msgs - n.toNat)]
  · intro hpos hcount
    have hguard : (!jsNumIsFinite (JsNum.int n) || jsNumLeZero (JsNum.int n)) = false := by
      simp [jsNumIsFinite, jsNumLeZero]
      omega
    unfold pruneQrfPlotHistory
    rw [hguard]
    simp only [Bool.false_eq_true, if_false]
    rw [if_pos (show ((collectPlotIndexes msgs 0).length : Int) ≤ n by rw [hlen]; omega)]
  · intro k hk
    have hguard : (!jsNumIsFinite k || jsNumLeZero k) = true := by
      rcases hk with h | h
      · simp [h]
      · simp [h]
    unfold pruneQrfPlotHistory
    rw [hguard]
    simp

/-- A chat with three qrf-plot carriers among four messages. -/
def msgsC10 : List ChatMsg :=
  [⟨some "p1", "a"⟩, ⟨some "p2", "b"⟩, ⟨none, "c"⟩, ⟨some "p3", "d"⟩]

/-- Witness for `claim_C10_prune_qrf_plot_history` with retention 1 over a
chat carrying three qrf-plot saves: the oldest two are pruned. -/
theorem claim_C10_prune_qrf_plot_history_witness :
    pruneQrfPlotHistory (some msgsC10) (.int 1)
      = (qrfCount msgsC10 - (1 : Int).toNat,
         some (dropOldestQrf (qrfCount msgsC10 - (1 : Int).toNat) msgsC10)) :=
  (claim_C10_prune_qrf_plot_history msgsC10 1).1 (by decide) (by decide)

end QRF
